import Mathlib

/-!
Verification of the XML-to-CSV emission-record flattener
(reference implementation: src/unnamed/part_003, the argv-driven Expat
variant of emitor_expat.c).

The embedding below translates the C program into Lean:

* struct Data / struct ParserContext become structures; the int field
  nTags is modelled as an Int (so that the non-negativity invariant the C
  guard maintains is a real statement), and the tags backing array is the
  list of strings written so far, of which only the first nTags entries
  are live (livePath).
* startElement / endElement / saveData / saveOneElement / addTag /
  valueInArray are translated branch by branch from the C source.
* expat events are a list of Event values; the wall-clock reading that
  saveOneElement would obtain from localtime is attached to each start
  event, since the clock is consulted once per emitted row.
* main is modelled per chunk by flushChunks / mainOutputs (header plus
  row flushing to the output file and, when verbose, to the console).
* the realloc bug in addTag (the pointer returned by relocateMemmory is
  discarded) is analysed against an explicit heap model at the end.
-/

/-- Civil time as delivered by localtime: tm_year is years since 1900,
tm_mon is 0-11, tm_mday the day of month, tm_hour 0-23. -/
structure Tm where
  tm_year : Nat
  tm_mon : Nat
  tm_mday : Nat
  tm_hour : Nat
deriving DecidableEq, Repr

/-- Category element names, C array tagFirstNames. -/
def tagFirstNames : List String := ["status", "parametr", "stezenie"]

/-- Leaf-kind element names, C array tagNames. -/
def tagNames : List String := ["auto", "reka", "wartosc", "status", "niepewnosc", "standard"]

/-- C function valueInArray: strcmp scan over an array of strings. -/
def valueInArray (val : String) : List String → Bool
  | [] => false
  | a :: rest => if a = val then true else valueInArray val rest

/-- The Data struct of the C program.  tags is the backing array contents
written so far; nTags counts the live entries (an int in C, hence Int
here); allocatedTags is the capacity bookkeeping of relocateMemmory. -/
structure Data where
  emitor : String
  tags : List String
  nTags : Int
  allocatedTags : Int
  value : String
deriving DecidableEq, Repr

/-- The ParserContext struct: current Data plus the pending-row buffer
(dataBuffers with live count nBuff = dataBuffers.length here) and its
capacity bookkeeping. -/
structure ParserContext where
  data : Data
  dataBuffers : List String
  allocatedBuffers : Nat
deriving DecidableEq, Repr

/-- Writing through tags[i]: overwrite a previously used slot or extend
the backing list by one (the C array always has capacity for index
nTags after relocateMemmory ran). -/
def storeAt (l : List String) (i : Nat) (v : String) : List String :=
  if i < l.length then l.set i v else l ++ [v]

/-- C initData: nTags = 0, allocatedTags = ADD_TAG = 5.  The emitor and
value fields of a stack-allocated Data are uninitialised in C, so they
are parameters here. -/
def initData (e0 v0 : String) : Data :=
  { emitor := e0, tags := [], nTags := 0, allocatedTags := 5, value := v0 }

/-- C initParserContext: empty buffer, allocatedBuffers = 0. -/
def initParserContext (d : Data) : ParserContext :=
  { data := d, dataBuffers := [], allocatedBuffers := 0 }

/-- A freshly initialised session with the given uninitialised-memory
contents for the emitor and value fields. -/
def initContext (e0 v0 : String) : ParserContext :=
  initParserContext (initData e0 v0)

/-- C addTag: relocateMemmory bookkeeping (grow capacity by ADD_TAG = 5
when nTags has reached it), then store the tag at index nTags and
increment nTags. -/
def addTag (d : Data) (tag : String) : Data :=
  { d with
    tags := storeAt d.tags d.nTags.toNat tag
    nTags := d.nTags + 1
    allocatedTags :=
      if d.nTags ≥ d.allocatedTags then d.allocatedTags + 5 else d.allocatedTags }

/-- The live tag path: the first nTags entries of the backing array,
exactly the entries saveData reads. -/
def livePath (d : Data) : List String :=
  d.tags.take d.nTags.toNat

/-- Zero-padded two-digit rendering, the %02d conversion of sprintf for
the non-negative arguments that localtime produces. -/
def fmt02d (n : Nat) : String :=
  if n < 10 then "0" ++ Nat.repr n else Nat.repr n

/-- C saveData: concatenate emitor and the live tags separated by dots
(strcpy then repeated strcat of "." and the tag), then sprintf the row
as "Y-MM-DD","H","path","value" with a trailing newline.  %d prints the
hour and the year unpadded, %02d pads month and day. -/
def saveData (tm : Tm) (d : Data) : String :=
  let oneTag := (livePath d).foldl (fun acc t => acc ++ "." ++ t) d.emitor
  "\"" ++ Nat.repr (tm.tm_year + 1900) ++ "-" ++ fmt02d (tm.tm_mon + 1) ++ "-"
    ++ fmt02d tm.tm_mday ++ "\",\"" ++ Nat.repr tm.tm_hour ++ "\",\""
    ++ oneTag ++ "\",\"" ++ d.value ++ "\"\n"

/-- C saveOneElement: read the clock, grow the buffer array if needed
(ADD_BUFFOR = 5), format the current Data with saveData into the slot
nBuff and increment nBuff. -/
def saveOneElement (ctx : ParserContext) (tm : Tm) : ParserContext :=
  { ctx with
    dataBuffers := ctx.dataBuffers ++ [saveData tm ctx.data]
    allocatedBuffers :=
      if ctx.dataBuffers.length ≥ ctx.allocatedBuffers then ctx.allocatedBuffers + 5
      else ctx.allocatedBuffers }

/-- Attribute scan with break: the value of the first pair whose key
matches, as in the typ and pkt loops of startElement. -/
def findAttrFirst (key : String) : List (String × String) → Option String
  | [] => none
  | (k, v) :: rest => if k = key then some v else findAttrFirst key rest

/-- Attribute scan without break, as in the nazwa loop of startElement:
every matching pair is copied over the current contents in order, so the
last matching pair is what remains. -/
def scanNazwa (attrs : List (String × String)) (cur : String) : String :=
  match attrs with
  | [] => cur
  | (k, v) :: rest => scanNazwa rest (if k = "nazwa" then v else cur)

/-- C startElement, branch for branch:
1. name equal to emitor: copy each nazwa attribute into data.emitor;
2. nTags == 0 and name is a category name: push name, then push the
   first typ attribute value if present;
3. nTags != 0: push name; if name is a leaf-kind name, copy the first
   pkt attribute value if present and append one row via saveOneElement;
4. otherwise nothing happens. -/
def startElement (ctx : ParserContext) (tm : Tm) (name : String)
    (attrs : List (String × String)) : ParserContext :=
  if name = "emitor" then
    { ctx with data := { ctx.data with emitor := scanNazwa attrs ctx.data.emitor } }
  else if ctx.data.nTags = 0 ∧ valueInArray name tagFirstNames = true then
    { ctx with data :=
        match findAttrFirst "typ" attrs with
        | some v => addTag (addTag ctx.data name) v
        | none => addTag ctx.data name }
  else if ctx.data.nTags ≠ 0 then
    if valueInArray name tagNames = true then
      match findAttrFirst "pkt" attrs with
      | some v => saveOneElement { ctx with data := { addTag ctx.data name with value := v } } tm
      | none => saveOneElement { ctx with data := addTag ctx.data name } tm
    else
      { ctx with data := addTag ctx.data name }
  else ctx

/-- C endElement: if nTags > 0 decrement it, and if the decremented
count is exactly 1 while name is a category name, decrement again. -/
def endElement (ctx : ParserContext) (name : String) : ParserContext :=
  if ctx.data.nTags > 0 then
    let d1 := { ctx.data with nTags := ctx.data.nTags - 1 }
    if d1.nTags = 1 ∧ valueInArray name tagFirstNames = true then
      { ctx with data := { d1 with nTags := d1.nTags - 1 } }
    else
      { ctx with data := d1 }
  else ctx

/-- An expat callback event.  A start event carries the wall-clock
reading that saveOneElement would obtain were a row emitted at it;
character data events are ignored by the program and omitted. -/
inductive Event where
  | startEv (name : String) (attrs : List (String × String)) (tm : Tm)
  | endEv (name : String)
deriving DecidableEq, Repr

/-- Dispatch of one expat event to the handlers. -/
def processEvent (ctx : ParserContext) (e : Event) : ParserContext :=
  match e with
  | .startEv name attrs tm => startElement ctx tm name attrs
  | .endEv name => endElement ctx name

/-- Processing a whole event sequence. -/
def run (ctx : ParserContext) (es : List Event) : ParserContext :=
  es.foldl processEvent ctx

example :
    (run (initContext "g" "w")
      [.startEv "emitor" [("nazwa", "K3")] ⟨124, 9, 1, 10⟩,
       .startEv "status" [("typ", "reka")] ⟨124, 9, 1, 10⟩,
       .startEv "reka" [("pkt", "1012")] ⟨124, 9, 1, 10⟩,
       .endEv "reka", .endEv "status", .endEv "emitor"]).dataBuffers
    = ["\"2024-10-01\",\"10\",\"K3.status.reka.reka\",\"1012\"\n"] := by
  decide

/-- The event sequence of the document
<emitor nazwa=E><status typ=T><reka pkt=V/></status></emitor>,
the claim C1 document shape: one emitor with name E, one status with typ
attribute T containing one leaf reka with pkt attribute V.  Each start
event carries the clock reading current when it is handled. -/
def c1doc (E T V : String) (t1 t2 t3 : Tm) : List Event :=
  [.startEv "emitor" [("nazwa", E)] t1,
   .startEv "status" [("typ", T)] t2,
   .startEv "reka" [("pkt", V)] t3,
   .endEv "reka", .endEv "status", .endEv "emitor"]

/-- One formatted CSV row with the given dotted path and value, as the
spec describes it: quoted zero-padded date, quoted unpadded hour, quoted
dotted path, quoted value, newline. -/
def csvRow (tm : Tm) (path v : String) : String :=
  "\"" ++ Nat.repr (tm.tm_year + 1900) ++ "-" ++ fmt02d (tm.tm_mon + 1) ++ "-"
    ++ fmt02d tm.tm_mday ++ "\",\"" ++ Nat.repr tm.tm_hour ++ "\",\""
    ++ path ++ "\",\"" ++ v ++ "\"\n"

/-- C1: running the full parse over a document with exactly one emitor
element named E and one status element with typ attribute T containing
exactly one leaf reka with pkt attribute V produces exactly one data
row; its dotted-path field is E.status.T.reka and its value field is V.
This holds for every E, T, V, every clock reading at each event and
every initial contents of the uninitialised emitor and value fields. -/
theorem c1_single_reading_row (E T V : String) (t1 t2 t3 : Tm) (e0 v0 : String) :
    (run (initContext e0 v0) (c1doc E T V t1 t2 t3)).dataBuffers
      = [csvRow t3 (E ++ "." ++ "status" ++ "." ++ T ++ "." ++ "reka") V] := by
  rfl

/-- Number of leaf-kind start events encountered while the tag stack is
non-empty, following the state evolution of the dispatcher.  These are
exactly the events the claim C2 counts. -/
def countLeafRows (ctx : ParserContext) : List Event → Nat
  | [] => 0
  | e :: rest =>
    (match e with
     | .startEv name _ _ =>
       if ctx.data.nTags ≠ 0 ∧ valueInArray name tagNames = true then 1 else 0
     | .endEv _ => 0) + countLeafRows (processEvent ctx e) rest

theorem startElement_buffers_len (ctx : ParserContext) (tm : Tm) (name : String)
    (attrs : List (String × String)) :
    (startElement ctx tm name attrs).dataBuffers.length
      = ctx.dataBuffers.length
        + (if ctx.data.nTags ≠ 0 ∧ valueInArray name tagNames = true then 1 else 0) := by
  unfold startElement
  by_cases h1 : name = "emitor"
  · subst h1
    simp [saveOneElement, show valueInArray "emitor" tagNames = false from rfl]
  · by_cases h2 : ctx.data.nTags = 0 ∧ valueInArray name tagFirstNames = true
    · simp [h1, h2, h2.1]
    · by_cases h3 : ctx.data.nTags ≠ 0
      · by_cases h4 : valueInArray name tagNames = true
        · cases hf : findAttrFirst "pkt" attrs <;>
            simp [h1, h2, h3, h4, hf, saveOneElement]
        · simp [h1, h2, h3, h4]
      · simp at h3
        simp [h1, h2, h3]
        split <;> rfl

theorem endElement_buffers (ctx : ParserContext) (name : String) :
    (endElement ctx name).dataBuffers = ctx.dataBuffers := by
  unfold endElement
  by_cases h : ctx.data.nTags > 0
  · simp [h]
    split <;> rfl
  · simp [h]

/-- C2: over any whole run, the number of CSV data rows appended to the
pending-row buffer equals the number of leaf-kind start events (auto,
reka, wartosc, status, niepewnosc, standard) encountered while the tag
stack is non-empty; in particular a leaf-kind element encountered while
the stack is empty contributes no row. -/
theorem c2_row_count (es : List Event) (ctx : ParserContext) :
    (run ctx es).dataBuffers.length
      = ctx.dataBuffers.length + countLeafRows ctx es := by
  induction es generalizing ctx with
  | nil => simp [run, countLeafRows]
  | cons e rest ih =>
    have hrun : run ctx (e :: rest) = run (processEvent ctx e) rest := by
      simp [run]
    rw [hrun, ih]
    cases e with
    | startEv name attrs tm =>
      simp only [countLeafRows, processEvent]
      rw [startElement_buffers_len]
      omega
    | endEv name =>
      simp only [countLeafRows, processEvent]
      rw [endElement_buffers]
      omega

theorem startElement_nTags (ctx : ParserContext) (tm : Tm) (name : String)
    (attrs : List (String × String)) :
    (startElement ctx tm name attrs).data.nTags = ctx.data.nTags
    ∨ ((startElement ctx tm name attrs).data.nTags = ctx.data.nTags + 1
        ∧ ctx.data.nTags ≠ 0)
    ∨ (ctx.data.nTags = 0 ∧ valueInArray name tagFirstNames = true
        ∧ ((startElement ctx tm name attrs).data.nTags = 1
            ∨ (startElement ctx tm name attrs).data.nTags = 2)) := by
  unfold startElement
  by_cases h1 : name = "emitor"
  · left; simp [h1]
  · by_cases h2 : ctx.data.nTags = 0 ∧ valueInArray name tagFirstNames = true
    · right; right
      refine ⟨h2.1, h2.2, ?_⟩
      cases hf : findAttrFirst "typ" attrs <;>
        simp [h1, h2, hf, addTag, h2.1]
    · by_cases h3 : ctx.data.nTags ≠ 0
      · right; left
        refine ⟨?_, h3⟩
        by_cases h4 : valueInArray name tagNames = true
        · cases hf : findAttrFirst "pkt" attrs <;>
            simp [h1, h2, h3, h4, hf, saveOneElement, addTag]
        · simp [h1, h2, h3, h4, addTag]
      · left
        simp at h3
        rw [if_neg h1, if_neg h2, if_neg (show ¬ctx.data.nTags ≠ 0 by simpa using h3)]

theorem endElement_nTags (ctx : ParserContext) (name : String) :
    (endElement ctx name).data.nTags =
      if ctx.data.nTags > 0 then
        if ctx.data.nTags - 1 = 1 ∧ valueInArray name tagFirstNames = true
        then ctx.data.nTags - 2 else ctx.data.nTags - 1
      else ctx.data.nTags := by
  unfold endElement
  by_cases h : ctx.data.nTags > 0
  · simp only [h, if_true]
    split
    · simp_all
      omega
    · simp_all
  · simp [h]

theorem run_nTags_nonneg (es : List Event) (ctx : ParserContext)
    (h : 0 ≤ ctx.data.nTags) : 0 ≤ (run ctx es).data.nTags := by
  induction es generalizing ctx with
  | nil => simpa [run] using h
  | cons e rest ih =>
    have hrun : run ctx (e :: rest) = run (processEvent ctx e) rest := by
      simp [run]
    rw [hrun]
    refine ih _ ?_
    cases e with
    | startEv name attrs tm =>
      rcases startElement_nTags ctx tm name attrs with h1 | ⟨h1, _⟩ | ⟨_, _, h1 | h1⟩ <;>
        simp only [processEvent] <;> omega
    | endEv name =>
      have he := endElement_nTags ctx name
      simp only [processEvent]
      split at he <;> [skip; omega]
      split at he <;> omega

/-- Balanced event sequences: those arising from a well-formed forest of
XML elements, every start event matched by the corresponding end event. -/
inductive BalancedEv : List Event → Prop where
  | nil : BalancedEv []
  | node (name : String) (attrs : List (String × String)) (tm : Tm)
      (inner rest : List Event) :
      BalancedEv inner → BalancedEv rest →
      BalancedEv (Event.startEv name attrs tm :: inner ++ Event.endEv name :: rest)

theorem balanced_nTags_le (es : List Event) (hb : BalancedEv es) :
    ∀ ctx : ParserContext, 0 ≤ ctx.data.nTags →
      0 ≤ (run ctx es).data.nTags ∧ (run ctx es).data.nTags ≤ ctx.data.nTags := by
  induction hb with
  | nil => intro ctx hc; simpa [run] using hc
  | node name attrs tm inner rest hinner hrest ihinner ihrest =>
    intro ctx hc
    have hsplit : run ctx (Event.startEv name attrs tm :: inner ++ Event.endEv name :: rest)
        = run (endElement (run (startElement ctx tm name attrs) inner) name) rest := by
      simp [run, List.foldl_cons, List.foldl_append, processEvent]
    rw [hsplit]
    have he := endElement_nTags (run (startElement ctx tm name attrs) inner) name
    rcases startElement_nTags ctx tm name attrs with h1 | ⟨h1, hne⟩ | ⟨hz, hcat, h1 | h1⟩
    · obtain ⟨hm0, hm1⟩ := ihinner (startElement ctx tm name attrs) (by omega)
      obtain ⟨hf0, hf1⟩ := ihrest (endElement (run (startElement ctx tm name attrs) inner) name)
        (by split at he <;> [skip; omega]; split at he <;> omega)
      split at he
      · split at he <;> omega
      · omega
    · obtain ⟨hm0, hm1⟩ := ihinner (startElement ctx tm name attrs) (by omega)
      obtain ⟨hf0, hf1⟩ := ihrest (endElement (run (startElement ctx tm name attrs) inner) name)
        (by split at he <;> [skip; omega]; split at he <;> omega)
      split at he
      · split at he <;> omega
      · omega
    · obtain ⟨hm0, hm1⟩ := ihinner (startElement ctx tm name attrs) (by omega)
      have hm : (run (startElement ctx tm name attrs) inner).data.nTags = 0
          ∨ (run (startElement ctx tm name attrs) inner).data.nTags = 1 := by omega
      have hz2 : (endElement (run (startElement ctx tm name attrs) inner) name).data.nTags = 0 := by
        rcases hm with hm | hm <;> rw [hm] at he <;> simp [hcat] at he <;> omega
      obtain ⟨hf0, hf1⟩ := ihrest (endElement (run (startElement ctx tm name attrs) inner) name)
        (by omega)
      omega
    · obtain ⟨hm0, hm1⟩ := ihinner (startElement ctx tm name attrs) (by omega)
      have hm : (run (startElement ctx tm name attrs) inner).data.nTags = 0
          ∨ (run (startElement ctx tm name attrs) inner).data.nTags = 1
          ∨ (run (startElement ctx tm name attrs) inner).data.nTags = 2 := by omega
      have hz2 : (endElement (run (startElement ctx tm name attrs) inner) name).data.nTags = 0 := by
        rcases hm with hm | hm | hm <;> rw [hm] at he <;> simp [hcat] at he <;> omega
      obtain ⟨hf0, hf1⟩ := ihrest (endElement (run (startElement ctx tm name attrs) inner) name)
        (by omega)
      omega

/-- C3: for any event sequence of a well-formed (balanced) document, the
tag counter nTags is never negative after any event (stated for every
prefix of the sequence), and after the final end event it is exactly 0. -/
theorem c3_depth (es p q : List Event) (hb : BalancedEv es) (_hpq : es = p ++ q)
    (e0 v0 : String) :
    0 ≤ (run (initContext e0 v0) p).data.nTags
    ∧ (run (initContext e0 v0) es).data.nTags = 0 := by
  constructor
  · exact run_nTags_nonneg p _ (by simp [initContext, initParserContext, initData])
  · have h := balanced_nTags_le es hb (initContext e0 v0)
      (by simp [initContext, initParserContext, initData])
    have h0 : (initContext e0 v0).data.nTags = 0 := by
      simp [initContext, initParserContext, initData]
    omega

/-- The event sequence of <status typ="a"><reka pkt="7"/></status>. -/
def c3doc : List Event :=
  [.startEv "status" [("typ", "a")] ⟨124, 9, 1, 10⟩,
   .startEv "reka" [("pkt", "7")] ⟨124, 9, 1, 10⟩,
   .endEv "reka", .endEv "status"]

theorem c3_depth_witness :
    BalancedEv c3doc
    ∧ c3doc = [Event.startEv "status" [("typ", "a")] ⟨124, 9, 1, 10⟩,
        Event.startEv "reka" [("pkt", "7")] ⟨124, 9, 1, 10⟩] ++ [Event.endEv "reka", Event.endEv "status"]
    ∧ 0 ≤ (run (initContext "" "") [Event.startEv "status" [("typ", "a")] ⟨124, 9, 1, 10⟩,
        Event.startEv "reka" [("pkt", "7")] ⟨124, 9, 1, 10⟩]).data.nTags
    ∧ (run (initContext "" "") c3doc).data.nTags = 0 := by
  have hbal : BalancedEv c3doc :=
    BalancedEv.node "status" [("typ", "a")] ⟨124, 9, 1, 10⟩ _ _
      (BalancedEv.node "reka" [("pkt", "7")] ⟨124, 9, 1, 10⟩ [] [] BalancedEv.nil BalancedEv.nil)
      BalancedEv.nil
  have h := c3_depth c3doc
    [Event.startEv "status" [("typ", "a")] ⟨124, 9, 1, 10⟩,
      Event.startEv "reka" [("pkt", "7")] ⟨124, 9, 1, 10⟩]
    [Event.endEv "reka", Event.endEv "status"] hbal rfl "" ""
  exact ⟨hbal, rfl, h.1, h.2⟩

/-- C4: the effect of one end-element event.  If the stack is non-empty
exactly one label is popped (the live path loses its last label and the
counter drops by one); if after that pop exactly one label remains and
the name is one of the three category names, a second label is popped
and the stack becomes empty; if the stack is empty nothing changes. -/
theorem c4_end_element (ctx : ParserContext) (name : String)
    (_h0 : 0 ≤ ctx.data.nTags) (hlen : ctx.data.nTags.toNat ≤ ctx.data.tags.length) :
    endElement ctx name
      = (if 0 < ctx.data.nTags then
          if ctx.data.nTags - 1 = 1 ∧ valueInArray name tagFirstNames = true then
            { ctx with data := { ctx.data with nTags := 0 } }
          else
            { ctx with data := { ctx.data with nTags := ctx.data.nTags - 1 } }
        else ctx)
    ∧ livePath (endElement ctx name).data
      = (if 0 < ctx.data.nTags then
          if ctx.data.nTags - 1 = 1 ∧ valueInArray name tagFirstNames = true then
            ([] : List String)
          else (livePath ctx.data).dropLast
        else livePath ctx.data) := by
  have hmain : endElement ctx name
      = (if 0 < ctx.data.nTags then
          if ctx.data.nTags - 1 = 1 ∧ valueInArray name tagFirstNames = true then
            { ctx with data := { ctx.data with nTags := 0 } }
          else
            { ctx with data := { ctx.data with nTags := ctx.data.nTags - 1 } }
        else ctx) := by
    unfold endElement
    by_cases h : ctx.data.nTags > 0
    · by_cases h2 : ctx.data.nTags - 1 = 1 ∧ valueInArray name tagFirstNames = true
      · simp [h, h2.1, h2.2]
      · simp [h, h2]
    · simp [h]
  refine ⟨hmain, ?_⟩
  rw [hmain]
  by_cases h : 0 < ctx.data.nTags
  · by_cases h2 : ctx.data.nTags - 1 = 1 ∧ valueInArray name tagFirstNames = true
    · simp [h, h2, livePath]
    · simp only [h, if_true, h2, if_false, livePath]
      rw [List.dropLast_eq_take, List.length_take,
        Nat.min_eq_left hlen, List.take_take]
      congr 1
      omega
  · simp [h]

/-- A concrete context for the C4 witness: two live labels, name equal
to the category just below them. -/
def c4ctx : ParserContext where
  data :=
    { emitor := "K"
      tags := ["status", "a"]
      nTags := 2
      allocatedTags := 5
      value := "9" }
  dataBuffers := []
  allocatedBuffers := 0

theorem c4_end_element_witness :
    0 ≤ c4ctx.data.nTags ∧ c4ctx.data.nTags.toNat ≤ c4ctx.data.tags.length
    ∧ endElement c4ctx "status" = { c4ctx with data := { c4ctx.data with nTags := 0 } }
    ∧ livePath (endElement c4ctx "status").data = [] := by
  have h := c4_end_element c4ctx "status" (by decide) (by decide)
  refine ⟨by decide, by decide, ?_, ?_⟩
  · rw [h.1]; decide
  · rw [h.2]; decide

theorem intercalate_go_foldl (sep : String) (as : List String) : ∀ acc : String,
    String.intercalate.go acc sep as = List.foldl (fun x t => x ++ sep ++ t) acc as := by
  induction as with
  | nil => intro acc; rfl
  | cons a rest ih => intro acc; rw [String.intercalate.go, List.foldl_cons, ih]

theorem foldl_dot_prepend (ls : List String) : ∀ x acc : String,
    List.foldl (fun a t => a ++ "." ++ t) (x ++ acc) ls
      = x ++ List.foldl (fun a t => a ++ "." ++ t) acc ls := by
  induction ls with
  | nil => intro x acc; rfl
  | cons t rest ih =>
    intro x acc
    rw [List.foldl_cons, List.foldl_cons, String.append_assoc x acc ".",
      String.append_assoc x (acc ++ ".") t]
    exact ih x (acc ++ "." ++ t)

/-- C5: an emitted row is exactly the quoted zero-padded date, the
quoted hour rendered unpadded by %d, the quoted dotted path starting
with the emitter name (a leading dot when the name is empty), and the
quoted value, terminated by a newline.  Emission always happens with at
least one live label, hence the tag path l :: ls. -/
theorem c5_row_format (tm : Tm) (e v : String) (a : Int) (l : String) (ls : List String) :
    saveData tm { emitor := e, tags := l :: ls, nTags := ((l :: ls).length : Int),
                  allocatedTags := a, value := v }
      = "\"" ++ Nat.repr (tm.tm_year + 1900) ++ "-" ++ fmt02d (tm.tm_mon + 1) ++ "-"
          ++ fmt02d tm.tm_mday ++ "\",\"" ++ Nat.repr tm.tm_hour ++ "\",\""
          ++ (e ++ "." ++ String.intercalate "." (l :: ls)) ++ "\",\"" ++ v ++ "\"\n" := by
  have hlp : livePath { emitor := e, tags := l :: ls, nTags := ((l :: ls).length : Int),
                        allocatedTags := a, value := v } = l :: ls := by
    simp [livePath]
  have hone : (l :: ls).foldl (fun acc t => acc ++ "." ++ t) e
      = e ++ "." ++ String.intercalate "." (l :: ls) := by
    rw [String.intercalate, intercalate_go_foldl, List.foldl_cons, foldl_dot_prepend]
  simp only [saveData]
  rw [hlp, hone]

theorem findAttrFirst_append (key : String) (l1 l2 : List (String × String)) :
    findAttrFirst key (l1 ++ l2)
      = (match findAttrFirst key l1 with
         | some v => some v
         | none => findAttrFirst key l2) := by
  induction l1 with
  | nil => simp [findAttrFirst]
  | cons p rest ih =>
    obtain ⟨k, v⟩ := p
    by_cases hk : k = key
    · simp [findAttrFirst, hk]
    · simp only [List.cons_append, findAttrFirst, hk, if_false]
      exact ih

theorem scanNazwa_last (attrs : List (String × String)) : ∀ cur : String,
    scanNazwa attrs cur = (findAttrFirst "nazwa" attrs.reverse).getD cur := by
  induction attrs with
  | nil => intro cur; rfl
  | cons p rest ih =>
    obtain ⟨k, v⟩ := p
    intro cur
    rw [scanNazwa, ih, List.reverse_cons, findAttrFirst_append]
    cases hr : findAttrFirst "nazwa" rest.reverse
    · by_cases hk : k = "nazwa" <;> simp [findAttrFirst, hk]
    · simp

/-- C6 as stated is false: two nazwa attributes on an emitor element
leave the second value in the tracker, not the first. -/
theorem c6_counterexample :
    (startElement (initContext "x" "w") ⟨124, 9, 1, 10⟩ "emitor"
        [("nazwa", "A"), ("nazwa", "B")]).data.emitor = "B"
    ∧ (startElement (initContext "x" "w") ⟨124, 9, 1, 10⟩ "emitor"
        [("nazwa", "A"), ("nazwa", "B")]).data.emitor ≠ "A" := by
  exact ⟨rfl, by decide⟩

/-- C6 amended: the nazwa scan on an emitor element copies every
matching attribute in order, so the last occurrence wins; the typ scan
of a category open (and likewise the pkt scan of a leaf) stops at the
first matching attribute, so there the first occurrence wins, and the
labels pushed on a category open are the category name followed by that
first typ value when one is present. -/
theorem c6_duplicate_attributes (ctx : ParserContext) (tm : Tm) (e0 v0 : String)
    (attrs : List (String × String)) :
    (startElement ctx tm "emitor" attrs).data.emitor
        = (findAttrFirst "nazwa" attrs.reverse).getD ctx.data.emitor
    ∧ findAttrFirst "typ" attrs
        = ((attrs.filter fun p => p.1 == "typ").head?).map Prod.snd
    ∧ livePath (startElement (initContext e0 v0) tm "status" attrs).data
        = "status" :: (findAttrFirst "typ" attrs).toList := by
  refine ⟨?_, ?_, ?_⟩
  · rw [show startElement ctx tm "emitor" attrs
        = { ctx with data := { ctx.data with emitor := scanNazwa attrs ctx.data.emitor } }
        from by rw [startElement, if_pos rfl]]
    exact scanNazwa_last attrs ctx.data.emitor
  · induction attrs with
    | nil => rfl
    | cons p rest ih =>
      obtain ⟨k, v⟩ := p
      by_cases hk : k = "typ"
      · simp [findAttrFirst, hk]
      · simp only [findAttrFirst, hk, if_false, ih, List.filter_cons]
        simp [hk]
  · cases hf : findAttrFirst "typ" attrs <;>
      simp [startElement, hf, initContext, initParserContext, initData, addTag,
        storeAt, livePath, show valueInArray "status" tagFirstNames = true from rfl]

/-- Character-list prefix test, the inner comparison loop of strstr. -/
def isPrefixOfB : List Char → List Char → Bool
  | [], _ => true
  | _ :: _, [] => false
  | a :: as, b :: bs => a == b && isPrefixOfB as bs

/-- C strstr as a Bool: the pattern occurs somewhere in the haystack.
main rejects a filename when strstr returns NULL, i.e. when this is
false. -/
def strstrB : List Char → List Char → Bool
  | [], pat => isPrefixOfB pat []
  | c :: t, pat => isPrefixOfB pat (c :: t) || strstrB t pat

/-- The filename test of main (lines 379-388 of the source): the run
proceeds past argument checking iff strstr finds ".xml" in the input
name and ".csv" in the output name. -/
def filenamesAccepted (inp outp : String) : Bool :=
  strstrB inp.toList ".xml".toList && strstrB outp.toList ".csv".toList

/-- Ends-with test, the check the claim describes. -/
def endsIn (s pat : String) : Bool :=
  isPrefixOfB pat.toList.reverse s.toList.reverse

theorem isPrefixOfB_iff (p : List Char) : ∀ h : List Char,
    isPrefixOfB p h = true ↔ ∃ r, h = p ++ r := by
  induction p with
  | nil =>
    intro h
    simp [isPrefixOfB]
  | cons a as ih =>
    intro h
    cases h with
    | nil => simp [isPrefixOfB]
    | cons b bs =>
      rw [isPrefixOfB, Bool.and_eq_true, beq_iff_eq, ih]
      constructor
      · rintro ⟨hab, r, hr⟩
        exact ⟨r, by rw [hab, hr]; rfl⟩
      · rintro ⟨r, hr⟩
        rw [List.cons_append] at hr
        injection hr with h1 h2
        exact ⟨h1.symm, r, h2⟩

theorem strstrB_iff (h p : List Char) :
    strstrB h p = true ↔ ∃ x y, h = x ++ p ++ y := by
  induction h with
  | nil =>
    rw [strstrB, isPrefixOfB_iff]
    constructor
    · rintro ⟨r, hr⟩
      exact ⟨[], r, hr⟩
    · rintro ⟨x, y, hxy⟩
      obtain ⟨h2, hy⟩ := List.append_eq_nil.mp hxy.symm
      obtain ⟨hx, hp⟩ := List.append_eq_nil.mp h2
      exact ⟨[], by rw [hp]; rfl⟩
  | cons c t ih =>
    rw [strstrB, Bool.or_eq_true, isPrefixOfB_iff, ih]
    constructor
    · rintro (⟨r, hr⟩ | ⟨x, y, hxy⟩)
      · exact ⟨[], r, by rw [hr]; rfl⟩
      · exact ⟨c :: x, y, by rw [List.cons_append, List.cons_append, hxy]⟩
    · rintro ⟨x, y, hxy⟩
      cases x with
      | nil =>
        left
        exact ⟨y, by simpa using hxy⟩
      | cons c2 x2 =>
        right
        rw [List.cons_append, List.cons_append] at hxy
        injection hxy with h1 h2
        exact ⟨x2, y, h2⟩

/-- C7 as stated is false: the input name data.xml.bak does not end in
.xml, yet the argument check accepts it, because strstr looks for the
extension anywhere inside the name. -/
theorem c7_counterexample :
    filenamesAccepted "data.xml.bak" "out.csv" = true
    ∧ endsIn "data.xml.bak" ".xml" = false := by
  exact ⟨rfl, rfl⟩

/-- C7 amended: the run proceeds past the filename check iff ".xml"
occurs somewhere in the input name and ".csv" occurs somewhere in the
output name.  A name that does end in the extension is therefore always
accepted, but a name containing it elsewhere is accepted too, so not
ending in it does not force rejection. -/
theorem c7_filename_check (inp outp : String) :
    filenamesAccepted inp outp = true
      ↔ ((∃ x y, inp.toList = x ++ ".xml".toList ++ y)
          ∧ (∃ x y, outp.toList = x ++ ".csv".toList ++ y)) := by
  rw [filenamesAccepted, Bool.and_eq_true, strstrB_iff, strstrB_iff]

/-- The pkt values stored during an event sequence: one entry per leaf
start event that occurs while the tag stack is non-empty and whose
attribute list carries a pkt key, following the dispatcher state. -/
def storedPkts (ctx : ParserContext) : List Event → List String
  | [] => []
  | e :: rest =>
    (match e with
     | .startEv name attrs _ =>
       if ctx.data.nTags ≠ 0 ∧ valueInArray name tagNames = true then
         (match findAttrFirst "pkt" attrs with
          | some v => [v]
          | none => [])
       else []
     | .endEv _ => []) ++ storedPkts (processEvent ctx e) rest

theorem valueInArray_tagNames_ne_emitor (name : String)
    (h : valueInArray name tagNames = true) : name ≠ "emitor" := by
  intro hname
  rw [hname] at h
  exact absurd h (by decide)

theorem startElement_value (ctx : ParserContext) (tm : Tm) (name : String)
    (attrs : List (String × String)) :
    (startElement ctx tm name attrs).data.value =
      if ctx.data.nTags ≠ 0 ∧ valueInArray name tagNames = true then
        (match findAttrFirst "pkt" attrs with
         | some v => v
         | none => ctx.data.value)
      else ctx.data.value := by
  unfold startElement
  by_cases h1 : name = "emitor"
  · simp [h1, show valueInArray "emitor" tagNames = false from rfl]
  · by_cases h2 : ctx.data.nTags = 0 ∧ valueInArray name tagFirstNames = true
    · have : ¬(ctx.data.nTags ≠ 0 ∧ valueInArray name tagNames = true) := by
        intro hc
        exact hc.1 h2.1
      cases hf : findAttrFirst "typ" attrs <;> simp [h1, h2, this, hf, addTag]
    · by_cases h3 : ctx.data.nTags ≠ 0
      · by_cases h4 : valueInArray name tagNames = true
        · cases hf : findAttrFirst "pkt" attrs <;>
            simp [h1, h2, h3, h4, hf, saveOneElement, addTag]
        · simp [h1, h2, h3, h4, addTag]
      · simp at h3
        have : ¬(ctx.data.nTags ≠ 0 ∧ valueInArray name tagNames = true) := by
          intro hc
          exact hc.1 h3
        rw [if_neg h1, if_neg h2, if_neg (show ¬ctx.data.nTags ≠ 0 by simpa using h3),
          if_neg this]

theorem endElement_value (ctx : ParserContext) (name : String) :
    (endElement ctx name).data.value = ctx.data.value := by
  unfold endElement
  by_cases h : ctx.data.nTags > 0
  · simp only [h, if_true]
    split <;> rfl
  · simp [h]

theorem getLastD_cons (l : List String) (a d : String) :
    ((a :: l).getLast?).getD d = (l.getLast?).getD a := by
  cases l with
  | nil => rfl
  | cons b l2 =>
    rw [List.getLast?_cons_cons]
    cases hl : (b :: l2).getLast? with
    | none => exact absurd hl (by simp)
    | some w => rfl

theorem run_value (es : List Event) : ∀ ctx : ParserContext,
    (run ctx es).data.value = ((storedPkts ctx es).getLast?).getD ctx.data.value := by
  induction es with
  | nil => intro ctx; simp [run, storedPkts]
  | cons e rest ih =>
    intro ctx
    have hrun : run ctx (e :: rest) = run (processEvent ctx e) rest := by
      simp [run]
    rw [hrun, ih]
    cases e with
    | startEv name attrs tm =>
      simp only [storedPkts]
      have hv := startElement_value ctx tm name attrs
      by_cases hc : ctx.data.nTags ≠ 0 ∧ valueInArray name tagNames = true
      · rw [if_pos hc] at hv ⊢
        cases hf : findAttrFirst "pkt" attrs
        · rw [hf] at hv
          simp [processEvent, hv]
        · rw [hf] at hv
          simp only [List.singleton_append, processEvent, hv, getLastD_cons]
      · rw [if_neg hc] at hv ⊢
        simp [processEvent, hv]
    | endEv name =>
      simp only [storedPkts, List.nil_append, processEvent, endElement_value]

/-- C9: a leaf start event while the stack is non-empty whose attribute
list has no pkt key still appends exactly one row, the value field left
as it was (addTag does not touch it); and over any run the value field
always equals the most recently stored pkt value, or the initial value
contents when none has been stored. -/
theorem c9_missing_pkt (ctx : ParserContext) (tm : Tm) (name : String)
    (attrs : List (String × String)) (es : List Event)
    (h1 : ctx.data.nTags ≠ 0) (h2 : valueInArray name tagNames = true)
    (h3 : findAttrFirst "pkt" attrs = none) :
    (startElement ctx tm name attrs).dataBuffers
        = ctx.dataBuffers ++ [saveData tm (addTag ctx.data name)]
    ∧ (startElement ctx tm name attrs).data.value = ctx.data.value
    ∧ (addTag ctx.data name).value = ctx.data.value
    ∧ (run ctx es).data.value = ((storedPkts ctx es).getLast?).getD ctx.data.value := by
  refine ⟨?_, ?_, rfl, run_value es ctx⟩
  · have hne : name ≠ "emitor" := valueInArray_tagNames_ne_emitor name h2
    have hb2 : ¬(ctx.data.nTags = 0 ∧ valueInArray name tagFirstNames = true) := by
      intro hc
      exact h1 hc.1
    rw [startElement, if_neg hne, if_neg hb2, if_pos h1, if_pos h2, h3]
    rfl
  · have hv := startElement_value ctx tm name attrs
    rw [if_pos ⟨h1, h2⟩, h3] at hv
    exact hv

/-- A concrete context for the C9 witness: one live label, a leaf event
with no attributes at all. -/
def c9ctx : ParserContext where
  data :=
    { emitor := "K"
      tags := ["status"]
      nTags := 1
      allocatedTags := 5
      value := "old" }
  dataBuffers := []
  allocatedBuffers := 0

theorem c9_missing_pkt_witness :
    c9ctx.data.nTags ≠ 0 ∧ valueInArray "reka" tagNames = true
    ∧ findAttrFirst "pkt" ([] : List (String × String)) = none
    ∧ (startElement c9ctx ⟨124, 9, 1, 10⟩ "reka" []).dataBuffers
        = c9ctx.dataBuffers ++ [saveData ⟨124, 9, 1, 10⟩ (addTag c9ctx.data "reka")]
    ∧ (startElement c9ctx ⟨124, 9, 1, 10⟩ "reka" []).data.value = c9ctx.data.value
    ∧ (addTag c9ctx.data "reka").value = c9ctx.data.value
    ∧ (run c9ctx [Event.endEv "x"]).data.value
        = ((storedPkts c9ctx [Event.endEv "x"]).getLast?).getD c9ctx.data.value := by
  have h := c9_missing_pkt c9ctx ⟨124, 9, 1, 10⟩ "reka" [] [Event.endEv "x"]
    (by decide) (by decide) rfl
  exact ⟨by decide, by decide, rfl, h.1, h.2.1, h.2.2.1, h.2.2.2⟩

/-- The CSV header line main writes before parsing. -/
def csvHeader : String := "\"YYYY-MM-DD\",\"Hour\",\"Emitor.Tags\",\"Pkt_Value\"\n"

/-- The per-chunk loop of main: parse one chunk, write the buffered
rows to the output file, echo them to the console only when verbose,
then reset nBuff to 0.  Returns (file lines, console lines) produced
after the header. -/
def flushChunks (verbose : Bool) (ctx : ParserContext) :
    List (List Event) → List String × List String
  | [] => ([], [])
  | c :: rest =>
    let ctx1 := run ctx c
    let pr := flushChunks verbose { ctx1 with dataBuffers := [] } rest
    (ctx1.dataBuffers ++ pr.1, (if verbose then ctx1.dataBuffers else []) ++ pr.2)

/-- The complete observable output of main for a given chunking of the
input events: the file contents (header then all flushed rows) and the
console contents (header and rows only when verbose). -/
def mainOutputs (verbose : Bool) (e0 v0 : String) (chunks : List (List Event)) :
    List String × List String :=
  let pr := flushChunks verbose (initContext e0 v0) chunks
  (csvHeader :: pr.1, (if verbose then [csvHeader] else []) ++ pr.2)

theorem flushChunks_file (chunks : List (List Event)) : ∀ ctx : ParserContext,
    (flushChunks true ctx chunks).1 = (flushChunks false ctx chunks).1 := by
  induction chunks with
  | nil => intro ctx; rfl
  | cons c rest ih =>
    intro ctx
    simp only [flushChunks, ih]

/-- C10: for the same input events, the same chunk boundaries and the
same clock readings, the file contents written by main are byte for
byte the same with and without the -v flag; the flag only changes what
is echoed to the console. -/
theorem c10_verbose_no_file_effect (e0 v0 : String) (chunks : List (List Event)) :
    (mainOutputs true e0 v0 chunks).1 = (mainOutputs false e0 v0 chunks).1 := by
  simp only [mainOutputs, flushChunks_file]

/-- A heap for the growth-policy analysis: numbered blocks, each either
live with its contents (a fixed-capacity array of strings) or freed. -/
abbrev Heap : Type := List (Option (List String))

/-- Reading a whole block: none when the pointer is dangling. -/
def hread (h : Heap) (p : Nat) : Option (List String) :=
  match h[p]? with
  | some (some c) => some c
  | _ => none

/-- Freeing a block. -/
def hfree (h : Heap) (p : Nat) : Heap := h.set p none

/-- Writing one slot of a block: none on a freed block or out-of-bounds
slot, both of which are undefined behaviour in C. -/
def hwriteAt (h : Heap) (p i : Nat) (v : String) : Option Heap :=
  match hread h p with
  | none => none
  | some c => if i < c.length then some (h.set p (some (c.set i v))) else none

/-- realloc under an allocator that always moves the block: the old
block is freed and a fresh, larger block with the same contents is
returned.  Moving is one of the behaviours C realloc is allowed. -/
def hrealloc (h : Heap) (p : Nat) (newSize : Nat) : Option (Heap × Nat) :=
  match hread h p with
  | none => none
  | some c =>
    some (hfree h p ++ [some (c ++ List.replicate (newSize - c.length) "")],
      (hfree h p).length)

/-- The tag-array portion of the Data struct seen through the heap:
the tags pointer, the live count and the capacity. -/
structure TagsArr where
  heap : Heap
  tags : Nat
  nTags : Nat
  allocatedTags : Nat
deriving DecidableEq, Repr

/-- C relocateMemmory on the heap: grow by the increment when the
current count has reached the capacity, returning the (possibly moved)
pointer and the new capacity. -/
def relocateC (h : Heap) (p cur alloc inc : Nat) : Option (Heap × Nat × Nat) :=
  if cur ≥ alloc then
    match hrealloc h p (alloc + inc) with
    | none => none
    | some (h1, q) => some (h1, q, alloc + inc)
  else some (h, p, alloc)

/-- C addTag exactly as written: the pointer returned by
relocateMemmory is DISCARDED (the call result is not assigned), so the
slot write still goes through the old tags pointer. -/
def addTagC (s : TagsArr) (tag : String) : Option TagsArr :=
  match relocateC s.heap s.tags s.nTags s.allocatedTags 5 with
  | none => none
  | some (h1, _newPtr, alloc1) =>
    match hwriteAt h1 s.tags s.nTags tag with
    | none => none
    | some h2 => some { heap := h2, tags := s.tags, nTags := s.nTags + 1, allocatedTags := alloc1 }

/-- addTag with the returned pointer assigned, the way the same
relocateMemmory call is used for dataBuffers in saveOneElement and the
way the function's own contract says it must be used. -/
def addTagA (s : TagsArr) (tag : String) : Option TagsArr :=
  match relocateC s.heap s.tags s.nTags s.allocatedTags 5 with
  | none => none
  | some (h1, newPtr, alloc1) =>
    match hwriteAt h1 newPtr s.nTags tag with
    | none => none
    | some h2 => some { heap := h2, tags := newPtr, nTags := s.nTags + 1, allocatedTags := alloc1 }

/-- Appending a sequence of tags with the discarding addTag. -/
def appendAllC : Option TagsArr → List String → Option TagsArr
  | none, _ => none
  | some s, [] => some s
  | some s, t :: ts => appendAllC (addTagC s t) ts

/-- Appending a sequence of tags with the assigning addTag. -/
def appendAllA : Option TagsArr → List String → Option TagsArr
  | none, _ => none
  | some s, [] => some s
  | some s, t :: ts => appendAllA (addTagA s t) ts

/-- The tag array right after initData: one block of capacity
ADD_TAG = 5, count 0. -/
def initTagsArr : TagsArr :=
  { heap := [some (List.replicate 5 "")], tags := 0, nTags := 0, allocatedTags := 5 }

/-- Reading back the live tags through the stored pointer. -/
def readTags : Option TagsArr → Option (List String)
  | none => none
  | some s =>
    match hread s.heap s.tags with
    | none => none
    | some c => some (c.take s.nTags)

/-- C8: below the first growth boundary the five appended tags read
back in insertion order, but the sixth append fails under a moving
allocator, because addTag discards the pointer relocateMemmory returns
and writes through the freed block; with the pointer assigned, as the
relocateMemmory contract requires and as the dataBuffers call site
does, seven appends across a growth step read back in insertion
order. -/
theorem c8_tag_growth_bug :
    readTags (appendAllC (some initTagsArr) ["t1", "t2", "t3", "t4", "t5"])
        = some ["t1", "t2", "t3", "t4", "t5"]
    ∧ appendAllC (some initTagsArr) ["t1", "t2", "t3", "t4", "t5", "t6"] = none
    ∧ readTags (appendAllA (some initTagsArr) ["t1", "t2", "t3", "t4", "t5", "t6", "t7"])
        = some ["t1", "t2", "t3", "t4", "t5", "t6", "t7"] := by
  exact ⟨rfl, rfl, rfl⟩
